import Mathlib

/-!
Verification development for `tensorly/tenalg/proximal.py`.

The file shallowly embeds the three NNLS solvers of the module —
`hals_nnls`, `active_set_nnls` and `fista_nnls` — over exact rationals
(`ℚ` stands for the backend's floating-point numbers; external
linear-algebra primitives such as `tl.solve`, `tl.norm`, `np.sqrt` and the
machine epsilon are taken as explicit function/constant parameters).
Each definition carries a comment pointing to the source lines it
translates.
-/

namespace Proximal

/-! ### Generic list/matrix arithmetic over ℚ

Matrices are lists of rows.  All accesses use `getD` with default `0`,
mirroring fixed-shape numpy arrays on well-formed inputs. -/

/-- Dot product of two vectors (`tl.dot` on 1-D arrays). -/
def dotQ (xs ys : List ℚ) : ℚ := (List.zipWith (· * ·) xs ys).sum

/-- Entry `M[i, j]` of a matrix. -/
def getEntry (M : List (List ℚ)) (i j : ℕ) : ℚ := (M.getD i []).getD j 0

/-- Column `j` of a matrix. -/
def colQ (M : List (List ℚ)) (j : ℕ) : List ℚ := M.map (fun r => r.getD j 0)

/-- Matrix transpose (`tl.transpose`). -/
def transposeM (M : List (List ℚ)) : List (List ℚ) :=
  (List.range (M.headD []).length).map (fun j => colQ M j)

/-- Matrix product (`tl.dot` on 2-D arrays). -/
def matMulQ (A B : List (List ℚ)) : List (List ℚ) :=
  A.map (fun r => (List.range ((B.headD []).length)).map (fun j => dotQ r (colQ B j)))

/-- Matrix-vector product (`tl.dot` of a 2-D with a 1-D array). -/
def matVecQ (A : List (List ℚ)) (v : List ℚ) : List ℚ := A.map (fun r => dotQ r v)

/-- Sum of all entries of the elementwise product of two matrices
(`tl.sum(A * B)`). -/
def hadSum (A B : List (List ℚ)) : ℚ :=
  (List.zipWith (fun r s => (List.zipWith (· * ·) r s).sum) A B).sum

/-- Elementwise `tl.clip(M, a_min=0, a_max=None)`. -/
def clipMat (M : List (List ℚ)) : List (List ℚ) :=
  M.map (fun r => r.map (fun q => max q 0))

/-- Scalar times matrix (`tl.dot(scale, V)` with scalar `scale`). -/
def scalMat (c : ℚ) (M : List (List ℚ)) : List (List ℚ) :=
  M.map (fun r => r.map (fun q => c * q))

/-- Maximum of a list, `0` on the empty list. -/
def listMax : List ℚ → ℚ
  | [] => 0
  | x :: xs => xs.foldl max x

/-- Minimum of a list, `0` on the empty list (`tl.min`). -/
def listMin : List ℚ → ℚ
  | [] => 0
  | x :: xs => xs.foldl min x

/-- Maximum entry of a matrix (`tl.max(V)`). -/
def matMax (M : List (List ℚ)) : ℚ := listMax M.flatten

/-- Index of the first maximal entry (`w.argmax()` of numpy). -/
def argmaxList (w : List ℚ) : ℕ :=
  (w.foldl (fun (acc : ℕ × ℕ × ℚ) q =>
      if q > acc.2.2 then (acc.2.1, acc.2.1 + 1, q) else (acc.1, acc.2.1 + 1, acc.2.2))
    (0, 0, w.headD 0)).1

/-- Nonnegativity of every entry of a vector. -/
def rowNonneg (r : List ℚ) : Prop := ∀ q ∈ r, 0 ≤ q

/-- Nonnegativity of every entry of a matrix. -/
def matNonneg (M : List (List ℚ)) : Prop := ∀ r ∈ M, rowNonneg r

/-! ### Name resolution in `proximal.py`

The module's only import is line 1, `import tensorly as tl`; the other
module-scope names are the four function definitions.  A global reference
inside a function body resolves against the module scope and the Python
builtins; a reference to any other name raises `NameError` at the point of
evaluation. -/

/-- Names bound at module scope of `proximal.py` (line 1 plus the `def`s). -/
def moduleScope : List String :=
  ["tl", "soft_thresholding", "svd_thresholding", "procrustes",
   "hals_nnls", "active_set_nnls", "fista_nnls"]

/-- Python builtins referenced by the module's function bodies. -/
def pythonBuiltins : List String := ["range", "len", "enumerate", "list", "str"]

/-- Whether a global reference resolves. -/
def boundName (s : String) : Bool := moduleScope.contains s || pythonBuiltins.contains s

/-- First name of a reference sequence that fails to resolve. -/
def firstUnboundName (refs : List String) : Option String :=
  refs.find? (fun s => !boundName s)

/-- Decidable equality for `Except`, used to evaluate concrete runs. -/
def exceptDecEq {ε α : Type} [DecidableEq ε] [DecidableEq α] :
    (a b : Except ε α) → Decidable (a = b)
  | Except.error e, Except.error f =>
    if h : e = f then Decidable.isTrue (congrArg Except.error h)
    else Decidable.isFalse (fun hh => h (by injection hh))
  | Except.error _, Except.ok _ => Decidable.isFalse (fun hh => Except.noConfusion hh)
  | Except.ok _, Except.error _ => Decidable.isFalse (fun hh => Except.noConfusion hh)
  | Except.ok x, Except.ok y =>
    if h : x = y then Decidable.isTrue (congrArg Except.ok h)
    else Decidable.isFalse (fun hh => h (by injection hh))

instance {ε α : Type} [DecidableEq ε] [DecidableEq α] : DecidableEq (Except ε α) :=
  exceptDecEq

/-- Exceptional outcomes of an invocation. -/
inductive PyFailure where
  | nameError (n : String)
  | typeError (fn : String)
deriving DecidableEq

/-- Global (non-local) references evaluated by the body of
`active_set_nnls` in order, up to line 273: `enumerate` (line 270), `tl`
(lines 271 and 273; resolvable references may repeat, which is harmless to
the first-failure computation), then the unqualified `multi_mode_dot` of
line 273, evaluated as the argument of `tl.base.tensor_to_vec`. -/
def activeSetGlobalRefs : List String :=
  ["enumerate", "tl", "tl", "tl", "tl", "multi_mode_dot"]

/-- Failure, if any, produced by the setup phase (lines 269-282) of any
invocation of `active_set_nnls`; the name check does not depend on the
arguments. -/
def active_set_nnls_outcome : Option PyFailure :=
  (firstUnboundName activeSetGlobalRefs).map PyFailure.nameError

/-- Global references evaluated by `fista_nnls` when `x` is provided:
`enumerate` (line 360), `tl` (line 361), then the unqualified
`multi_mode_dot` of line 363. -/
def fistaGlobalRefs : List String := ["enumerate", "tl", "tl", "tl", "multi_mode_dot"]

/-- Failure produced by any invocation of `fista_nnls` before its loop can
complete: with `x=None`, line 356 calls `tl.zeros()` with no shape argument
(`TypeError`); with `x` provided, line 363 dereferences the unbound
`multi_mode_dot`. -/
def fista_nnls_outcome (xProvided : Bool) : Option PyFailure :=
  if xProvided then (firstUnboundName fistaGlobalRefs).map PyFailure.nameError
  else some (PyFailure.typeError "tl.zeros")

/-! ### The HALS solver, `hals_nnls` (lines 98-250)

External primitives appear as parameters: `nrm` models `tl.norm`,
`invSqrt n` models the float `1 / n ** (1/2)` of line 235, `eps` models
`tl.eps(V.dtype)` of line 225, and the linear solver `tl.solve` of
line 192 is passed separately to `hals_nnls` as `sf`. -/

structure HalsParams where
  UtM : List (List ℚ)
  UtU : List (List ℚ)
  n_iter_max : ℕ
  tol : ℚ
  sparsity : Option ℚ
  normalize : Bool
  nonzero_rows : Bool
  exactMode : Bool
  eps : ℚ
  nrm : List ℚ → ℚ
  invSqrt : ℕ → ℚ

/-- Errors of a `hals_nnls` call: the `ValueError` of line 228 carrying the
offending row index, and the `NameError` at line 250 when `n_iter_max = 0`
leaves the local `iteration` unassigned. -/
inductive HalsErr where
  | degenerate (k : ℕ)
  | unboundLocal
deriving DecidableEq

/-- The tuple returned at line 250. -/
structure HalsResult where
  V : List (List ℚ)
  rec_error : ℚ
  iteration : ℕ
  complexity : ℚ
deriving DecidableEq

/-- The unconstrained row step of lines 211 / 217:
`(UtM[k,:] - dot(UtU[k,:], V) - sparsity_coefficient) / UtU[k,k]` at column
`j`, the sparsity term present only when a coefficient is configured. -/
def halsStepF (p : HalsParams) (V : List (List ℚ)) (k j : ℕ) : ℚ :=
  match p.sparsity with
  | some sc =>
    (getEntry p.UtM k j - dotQ (p.UtU.getD k []) (colQ V j) - sc) / getEntry p.UtU k k
  | none =>
    (getEntry p.UtM k j - dotQ (p.UtU.getD k []) (colQ V j)) / getEntry p.UtU k k

/-- Entry `j` of `deltaV`, the `tl.where(step > -V[k,:], step, -V[k,:])` of
lines 211-212 / 217-218. -/
def halsDeltaF (p : HalsParams) (V : List (List ℚ)) (k j : ℕ) : ℚ :=
  if halsStepF p V k j > -((V.getD k []).getD j 0) then halsStepF p V k j
  else -((V.getD k []).getD j 0)

/-- The updated row `V[k,:] + deltaV` of line 213 / 219. -/
def halsNewRow (p : HalsParams) (n : ℕ) (V : List (List ℚ)) (k : ℕ) : List ℚ :=
  (List.range n).map (fun j => (V.getD k []).getD j 0 + halsDeltaF p V k j)

/-- The zero-row safety replacement of lines 224-225: when `nonzero_rows`
is set and the just-updated row is entirely zero, overwrite it with
`tl.eps * tl.max(V)`. -/
def halsSafety (p : HalsParams) (n : ℕ) (V1 : List (List ℚ)) (newRow : List ℚ)
    (k : ℕ) : List (List ℚ) :=
  if p.nonzero_rows && newRow.all (fun q => decide (q = 0))
  then V1.set k ((List.range n).map (fun _ => p.eps * matMax V1))
  else V1

/-- Row update for index `k` (lines 208-228): when `UtU[k,k]` is nonzero,
add `deltaV` to row `k`, apply the safety replacement, and report
`tl.dot(deltaV, deltaV)` (line 221); when `UtU[k,k] == 0`, raise with `k`
if `nonzero_rows` (lines 227-228), else leave `V` unchanged. -/
def halsRowCore (p : HalsParams) (n : ℕ) (V : List (List ℚ)) (k : ℕ) :
    Except ℕ (List (List ℚ) × ℚ) :=
  if getEntry p.UtU k k ≠ 0 then
    Except.ok
      (halsSafety p n (V.set k (halsNewRow p n V k)) (halsNewRow p n V k) k,
       dotQ ((List.range n).map (halsDeltaF p V k)) ((List.range n).map (halsDeltaF p V k)))
  else if p.nonzero_rows then Except.error k
  else Except.ok (V, 0)

/-- The optional row normalization of lines 230-236: divide row `k` by its
norm when that is nonzero, else fill it with `1 / n_col_M ** (1/2)`. -/
def halsNormalizeRow (p : HalsParams) (n : ℕ) (V1 : List (List ℚ)) (k : ℕ) :
    List (List ℚ) :=
  if p.nrm (V1.getD k []) ≠ 0 then
    V1.set k ((List.range n).map (fun j => (V1.getD k []).getD j 0 / p.nrm (V1.getD k [])))
  else V1.set k ((List.range n).map (fun _ => p.invSqrt n))

/-- Row update followed by normalization, which lines 230-236 apply to row
`k` whether or not the row was updated. -/
def halsRow (p : HalsParams) (n : ℕ) (V : List (List ℚ)) (k : ℕ) :
    Except ℕ (List (List ℚ) × ℚ) :=
  match halsRowCore p n V k with
  | Except.error e => Except.error e
  | Except.ok (V1, d) =>
    Except.ok (if p.normalize then halsNormalizeRow p n V1 k else V1, d)

/-- One sweep over the listed row indices, accumulating `rec_error`
(the inner `for k in range(rank)` of lines 206-236). -/
def sweepGo (p : HalsParams) (n : ℕ) : List ℕ → List (List ℚ) → ℚ →
    Except ℕ (List (List ℚ) × ℚ)
  | [], V, re => Except.ok (V, re)
  | k :: ks, V, re =>
    match halsRow p n V k with
    | Except.error e => Except.error e
    | Except.ok (V', d) => sweepGo p n ks V' (re + d)

/-- One full sweep, starting from `rec_error = 0` (line 204). -/
def halsSweep (p : HalsParams) (rank n : ℕ) (V : List (List ℚ)) :
    Except ℕ (List (List ℚ) × ℚ) :=
  sweepGo p n (List.range rank) V 0

/-- The complexity formula of lines 240-242 with `rows`/`cols` the shape of
`V`: `1 + (rows*cols + cols*rank) / (rows*rank + rows)`. -/
def specComplexityFormula (rows cols rank : ℕ) : ℚ :=
  1 + (((rows * cols + cols * rank : ℕ) : ℚ) / ((rows * rank + rows : ℕ) : ℚ))

/-- One outer iteration (lines 204-248): sweep with `rec_error` starting at
`0`, recompute `rec_error0` — reset to `0` at line 205 and set to this
sweep's `rec_error` only when `iteration == 1` (lines 237-238) — compute
`complexity_ratio` from the shape of the updated `V`, and decide the break
of lines 243-248.  Returns `(V', rec_error, rec_error0, complexity_ratio,
break?)`. -/
def halsIterStep (p : HalsParams) (rank n : ℕ) (V : List (List ℚ)) (iter : ℕ) :
    Except HalsErr (List (List ℚ) × ℚ × ℚ × ℚ × Bool) :=
  match halsSweep p rank n V with
  | Except.error k => Except.error (HalsErr.degenerate k)
  | Except.ok (V', re) =>
    let re0 : ℚ := if iter = 1 then re else 0
    let cr : ℚ := specComplexityFormula V'.length (V'.headD []).length rank
    let brk : Bool :=
      if p.exactMode then decide (re < p.tol * re0)
      else decide (re < p.tol * re0) || decide ((iter : ℚ) > 1 + (1/2) * cr)
    Except.ok (V', re, re0, cr, brk)

/-- The outer loop `for iteration in range(n_iter_max)` of lines 203-248,
driven by the remaining iteration count; exhausting the range without a
break returns the last iteration's values, exactly as line 250 reads the
loop variables after the loop. -/
def halsGo (p : HalsParams) (rank n : ℕ) : ℕ → ℕ → List (List ℚ) →
    Except HalsErr HalsResult
  | 0, _, _ => Except.error HalsErr.unboundLocal
  | fuel + 1, iter, V =>
    match halsIterStep p rank n V iter with
    | Except.error e => Except.error e
    | Except.ok (V', re, _, cr, brk) =>
      if brk || decide (fuel = 0) then Except.ok ⟨V', re, iter, cr⟩
      else halsGo p rank n fuel (iter + 1) V'

/-- Default initialization of lines 191-198 when `V` is absent: clip the
unconstrained solution `sf UtU UtM` (the external `tl.solve`) to
nonnegative, then rescale by
`sum(UtM*V) / sum(UtU * dot(V, V.T))`. -/
def halsInit (p : HalsParams) (sf : List (List ℚ) → List (List ℚ) → List (List ℚ)) :
    Option (List (List ℚ)) → List (List ℚ)
  | some V => V
  | none =>
    let Vs := clipMat (sf p.UtU p.UtM)
    let scale := hadSum p.UtM Vs / hadSum p.UtU (matMulQ Vs (transposeM Vs))
    scalMat scale Vs

/-- Parameter rewriting of lines 199-201: `exact` mode forces
`n_iter_max = 5000` and `tol = 10e-12`. -/
def halsEff (p : HalsParams) : HalsParams :=
  if p.exactMode then { p with n_iter_max := 5000, tol := 10 / 1000000000000 } else p

/-- The full `hals_nnls` call (lines 190-250): `rank, n_col_M =
tl.shape(UtM)`, optional initialization, exact-mode rewriting, then the
outer loop. -/
def hals_nnls (p : HalsParams) (sf : List (List ℚ) → List (List ℚ) → List (List ℚ))
    (V0 : Option (List (List ℚ))) : Except HalsErr HalsResult :=
  halsGo (halsEff p) p.UtM.length (p.UtM.headD []).length
    (halsEff p).n_iter_max 0 (halsInit p sf V0)

/-! ### The active-set solver, `active_set_nnls` (lines 252-331)

Every invocation of the Python function fails at line 273 with a
`NameError` (see `active_set_nnls_outcome`), so its loop is dead code; the
definitions below embed the written loop-head logic of lines 283-292 — the
stop/pivot decision on the current gradient `w` and passive/active sets
`P`, `R` — which claims C1 refers to. -/

/-- Outcome of the head of one active-set iteration: either the loop breaks
(the function then returns the current `x`), or it continues into the
restricted solve with the updated sets. -/
inductive ASDecision where
  | terminal
  | pivot (P R : List ℕ)
deriving DecidableEq

/-- Lines 283-292: `break` when `tl.min(w) < 0`; otherwise let
`indice = w.argmax()` and append it to `P` / remove it from `R`, unless `P`
is nonempty with `P[-1] == indice`, in which case the sets are left
unchanged. -/
def activeSetHead (w : List ℚ) (P R : List ℕ) : ASDecision :=
  if listMin w < 0 then ASDecision.terminal
  else if P.length = 0 then
    ASDecision.pivot (P ++ [argmaxList w]) (R.erase (argmaxList w))
  else if P.getLast? ≠ some (argmaxList w) then
    ASDecision.pivot (P ++ [argmaxList w]) (R.erase (argmaxList w))
  else ASDecision.pivot P R

/-- The pivot step in the words of the (amended) specification: move
`argmax(w)` from `R` to `P`, as a no-op when it is already the most recent
passive entry. -/
def pivotTarget (w : List ℚ) (P R : List ℕ) : ASDecision :=
  if P = [] then
    ASDecision.pivot (P ++ [argmaxList w]) (R.erase (argmaxList w))
  else if P.getLast? ≠ some (argmaxList w) then
    ASDecision.pivot (P ++ [argmaxList w]) (R.erase (argmaxList w))
  else ASDecision.pivot P R

/-! ### The FISTA solver, `fista_nnls` (lines 333-384)

Every invocation of the Python function fails before returning (see
`fista_nnls_outcome`); the definitions below embed the written
per-iteration arithmetic of lines 371-383 for the single-mode case, where
`B = [b]`, `pseudo_inverse = [bᵀb]` (lines 359-361), `BtA = bᵀA`
(line 363), and `tl.tenalg.multi_mode_dot(x_upd, pseudo_inverse)` is
`(bᵀb)·x_upd` (line 372).  `sqrtF` models `np.sqrt` and `nrm` models
`tl.norm`, both external floating primitives. -/

structure FistaParams where
  BtA : List ℚ
  G : List (List ℚ)
  step : ℚ
  sqrtF : ℚ → ℚ
  nrm : List ℚ → ℚ
  n : ℕ

/-- The Gram factor `dot(conj(transpose(b)), b)` of line 361 (real data, so
conjugation is the identity). -/
def gramOf (b : List (List ℚ)) : List (List ℚ) := matMulQ (transposeM b) b

/-- The cross term `multi_mode_dot(A, [b], transpose=True) = bᵀ·A` that
line 363 intends (under its correct qualified name). -/
def btaOf (b : List (List ℚ)) (A : List ℚ) : List ℚ := matVecQ (transposeM b) A

/-- Loop state of `fista_nnls`: `x` is the previous accepted iterate,
`x_upd` the extrapolated point, `momentum_0` the momentum scalar and
`norm_0` the early-stop baseline (lines 366-368). -/
structure FistaState where
  x : List ℚ
  x_upd : List ℚ
  momentum_0 : ℚ
  norm_0 : ℚ
deriving DecidableEq

/-- The gradient of line 372: `- BtA + multi_mode_dot(x_upd,
pseudo_inverse)`. -/
def fistaGradient (pp : FistaParams) (xupd : List ℚ) : List ℚ :=
  (List.range pp.n).map (fun j => -(pp.BtA.getD j 0) + dotQ (pp.G.getD j []) xupd)

/-- Entry `j` of `delta_x`, the `tl.where` of line 373: note the
comparison is against `x`, the previous iterate, while the else-branch
takes `x_upd`, the extrapolated point. -/
def fistaDeltaEntry (pp : FistaParams) (s : FistaState) (j : ℕ) : ℚ :=
  if pp.step * (fistaGradient pp s.x_upd).getD j 0 < s.x.getD j 0
  then pp.step * (fistaGradient pp s.x_upd).getD j 0
  else s.x_upd.getD j 0

/-- Entry `j` of `xnew = x_upd - delta_x` (line 374). -/
def fistaXnewEntry (pp : FistaParams) (s : FistaState) (j : ℕ) : ℚ :=
  s.x_upd.getD j 0 - fistaDeltaEntry pp s j

/-- The momentum update of line 375:
`(1 + np.sqrt(1 + 4·momentum_0²)) / 2`. -/
def fistaMomentumNext (pp : FistaParams) (m0 : ℚ) : ℚ :=
  (1 + pp.sqrtF (1 + 4 * m0 ^ 2)) / 2

/-- One iteration body, lines 372-383: `delta_x` (line 373),
`xnew = x_upd - delta_x` (line 374), the momentum update (line 375), the
extrapolation `x_upd' = xnew + ((momentum_0 - 1)/momentum)·(xnew - x)`
(line 376), the shift of `x` (line 378), and the stopping data of
lines 379-383 (`norm_0` is set at iteration index 1 and the loop breaks
when `norm < 0.01 * norm_0`).  Returns the next state, `delta_x`, and the
break flag. -/
def fistaBody (pp : FistaParams) (s : FistaState) (iter : ℕ) :
    FistaState × List ℚ × Bool :=
  let nv := pp.nrm ((List.range pp.n).map (fistaDeltaEntry pp s))
  let norm_0' := if iter = 1 then nv else s.norm_0
  (⟨(List.range pp.n).map (fistaXnewEntry pp s),
    (List.range pp.n).map (fun j =>
      fistaXnewEntry pp s j +
        ((s.momentum_0 - 1) / fistaMomentumNext pp s.momentum_0) *
          (fistaXnewEntry pp s j - s.x.getD j 0)),
    fistaMomentumNext pp s.momentum_0, norm_0'⟩,
   (List.range pp.n).map (fistaDeltaEntry pp s),
   decide (nv < (1 / 100) * norm_0'))

/-- State after `k` iterations, from the initialization `x_upd = x`,
`momentum_0 = 1`, `norm_0 = 0` of lines 366-368. -/
def fistaIterate (pp : FistaParams) (x0 : List ℚ) : ℕ → FistaState
  | 0 => ⟨x0, x0, 1, 0⟩
  | k + 1 => (fistaBody pp (fistaIterate pp x0 k) k).1

/-- Modelled from the spec: the closed-form Nesterov momentum recurrence
`momentum' = (1 + sqrt(1 + 4·momentum²)) / 2` starting from `1`, stated
over the same external square-root primitive. -/
def nesterovRecurrence (sq : ℚ → ℚ) : ℕ → ℚ
  | 0 => 1
  | k + 1 => (1 + sq (1 + 4 * (nesterovRecurrence sq k) ^ 2)) / 2

/-- The candidate step in the words of the amended claim C3: compare
`gradient_step · g` with the previous iterate `x` entrywise, taking the
extrapolated entry when the comparison fails. -/
def fistaDeltaAmended (pp : FistaParams) (s : FistaState) : List ℚ :=
  (List.range pp.n).map (fun j =>
    if pp.step * (fistaGradient pp s.x_upd).getD j 0 < s.x.getD j 0
    then pp.step * (fistaGradient pp s.x_upd).getD j 0
    else s.x_upd.getD j 0)

/-! ### Helper lemmas: nonnegativity is preserved by the HALS update -/

lemma getD_nonneg {r : List ℚ} (h : rowNonneg r) (j : ℕ) : 0 ≤ r.getD j 0 := by
  induction r generalizing j with
  | nil => simp [List.getD]
  | cons a t ih =>
    cases j with
    | zero => exact h a (List.mem_cons_self a t)
    | succ j => simpa using ih (fun q hq => h q (List.mem_cons_of_mem a hq)) j

lemma rowNonneg_nil : rowNonneg [] := by
  intro q hq
  simp at hq

lemma rowNonneg_getD {M : List (List ℚ)} (h : matNonneg M) (k : ℕ) :
    rowNonneg (M.getD k []) := by
  induction M generalizing k with
  | nil => simpa [List.getD] using rowNonneg_nil
  | cons r t ih =>
    cases k with
    | zero => exact h r (List.mem_cons_self r t)
    | succ k => simpa using ih (fun s hs => h s (List.mem_cons_of_mem r hs)) k

lemma rowNonneg_map_range {n : ℕ} {f : ℕ → ℚ} (h : ∀ j, 0 ≤ f j) :
    rowNonneg ((List.range n).map f) := by
  intro q hq
  rcases List.mem_map.mp hq with ⟨j, _, rfl⟩
  exact h j

lemma matNonneg_set {M : List (List ℚ)} {r : List ℚ} (hM : matNonneg M)
    (hr : rowNonneg r) (k : ℕ) : matNonneg (M.set k r) := by
  intro s hs
  rcases List.mem_or_eq_of_mem_set hs with h | h
  · exact hM s h
  · exact h ▸ hr

lemma le_foldl_max (a : ℚ) (l : List ℚ) : a ≤ l.foldl max a := by
  induction l generalizing a with
  | nil => exact le_refl a
  | cons b t ih => exact le_trans (le_max_left a b) (ih (max a b))

lemma listMax_nonneg {l : List ℚ} (h : ∀ q ∈ l, 0 ≤ q) : 0 ≤ listMax l := by
  cases l with
  | nil => exact le_refl 0
  | cons x xs =>
    exact le_trans (h x (List.mem_cons_self x xs)) (le_foldl_max x xs)

lemma matMax_nonneg {M : List (List ℚ)} (h : matNonneg M) : 0 ≤ matMax M := by
  refine listMax_nonneg (fun q hq => ?_)
  rcases List.mem_flatten.mp hq with ⟨r, hr, hqr⟩
  exact h r hr q hqr

lemma update_entry_nonneg (v s : ℚ) : 0 ≤ v + (if s > -v then s else -v) := by
  by_cases h : s > -v
  · simp only [h, if_true]
    linarith
  · simp only [h, if_false]
    linarith

lemma halsNewRow_nonneg (p : HalsParams) (n : ℕ) (V : List (List ℚ)) (k : ℕ) :
    rowNonneg (halsNewRow p n V k) :=
  rowNonneg_map_range (fun j => update_entry_nonneg _ (halsStepF p V k j))

lemma halsSafety_nonneg {p : HalsParams} {n : ℕ} {V1 : List (List ℚ)}
    {newRow : List ℚ} {k : ℕ} (heps : 0 ≤ p.eps) (hV1 : matNonneg V1) :
    matNonneg (halsSafety p n V1 newRow k) := by
  unfold halsSafety
  split
  · exact matNonneg_set hV1
      (rowNonneg_map_range (fun _ => mul_nonneg heps (matMax_nonneg hV1))) k
  · exact hV1

lemma halsRowCore_nonneg {p : HalsParams} {n : ℕ} {V V' : List (List ℚ)} {k : ℕ}
    {d : ℚ} (heps : 0 ≤ p.eps) (hV : matNonneg V)
    (h : halsRowCore p n V k = Except.ok (V', d)) : matNonneg V' := by
  unfold halsRowCore at h
  split at h
  · injection h with h1
    injection h1 with h2 h3
    subst h2
    exact halsSafety_nonneg heps (matNonneg_set hV (halsNewRow_nonneg p n V k) k)
  · split at h
    · exact absurd h (by simp)
    · injection h with h1
      injection h1 with h2 h3
      subst h2
      exact hV

lemma halsNormalizeRow_nonneg {p : HalsParams} {n : ℕ} {V1 : List (List ℚ)}
    {k : ℕ} (hnrm : ∀ v, 0 ≤ p.nrm v) (hinv : ∀ m, 0 ≤ p.invSqrt m)
    (hV1 : matNonneg V1) : matNonneg (halsNormalizeRow p n V1 k) := by
  unfold halsNormalizeRow
  split
  · exact matNonneg_set hV1 (rowNonneg_map_range (fun j =>
      div_nonneg (getD_nonneg (rowNonneg_getD hV1 k) j) (hnrm _))) k
  · exact matNonneg_set hV1 (rowNonneg_map_range (fun _ => hinv n)) k

lemma halsRow_nonneg {p : HalsParams} {n : ℕ} {V V' : List (List ℚ)} {k : ℕ}
    {d : ℚ} (hnrm : ∀ v, 0 ≤ p.nrm v) (hinv : ∀ m, 0 ≤ p.invSqrt m)
    (heps : 0 ≤ p.eps) (hV : matNonneg V)
    (h : halsRow p n V k = Except.ok (V', d)) : matNonneg V' := by
  unfold halsRow at h
  cases hc : halsRowCore p n V k with
  | error e =>
    rw [hc] at h
    exact absurd h (by simp)
  | ok out =>
    obtain ⟨V1, d1⟩ := out
    have hV1 : matNonneg V1 := halsRowCore_nonneg heps hV hc
    rw [hc] at h
    dsimp only at h
    injection h with h1
    injection h1 with h2 h3
    subst h2
    split
    · exact halsNormalizeRow_nonneg hnrm hinv hV1
    · exact hV1

lemma sweepGo_nonneg {p : HalsParams} {n : ℕ} (hnrm : ∀ v, 0 ≤ p.nrm v)
    (hinv : ∀ m, 0 ≤ p.invSqrt m) (heps : 0 ≤ p.eps) :
    ∀ (ks : List ℕ) (V : List (List ℚ)) (re : ℚ) (V' : List (List ℚ)) (re' : ℚ),
      matNonneg V → sweepGo p n ks V re = Except.ok (V', re') → matNonneg V' := by
  intro ks
  induction ks with
  | nil =>
    intro V re V' re' hV h
    injection h with h1
    injection h1 with h2 h3
    exact h2 ▸ hV
  | cons k ks ih =>
    intro V re V' re' hV h
    unfold sweepGo at h
    cases hr : halsRow p n V k with
    | error e =>
      rw [hr] at h
      exact absurd h (by simp)
    | ok out =>
      obtain ⟨V1, d⟩ := out
      rw [hr] at h
      dsimp only at h
      exact ih V1 (re + d) V' re' (halsRow_nonneg hnrm hinv heps hV hr) h

lemma halsIterStep_nonneg {p : HalsParams} {rank n : ℕ} {V V' : List (List ℚ)}
    {re re0 cr : ℚ} {brk : Bool} (hnrm : ∀ v, 0 ≤ p.nrm v)
    (hinv : ∀ m, 0 ≤ p.invSqrt m) (heps : 0 ≤ p.eps) (hV : matNonneg V)
    (h : halsIterStep p rank n V iter = Except.ok (V', re, re0, cr, brk)) :
    matNonneg V' := by
  unfold halsIterStep at h
  cases hs : halsSweep p rank n V with
  | error e =>
    rw [hs] at h
    exact absurd h (by simp)
  | ok out =>
    obtain ⟨V1, re1⟩ := out
    rw [hs] at h
    dsimp only at h
    injection h with h1
    injection h1 with h2 h3
    exact h2 ▸ sweepGo_nonneg hnrm hinv heps (List.range rank) V 0 V1 re1 hV hs

lemma halsGo_nonneg {p : HalsParams} {rank n : ℕ} (hnrm : ∀ v, 0 ≤ p.nrm v)
    (hinv : ∀ m, 0 ≤ p.invSqrt m) (heps : 0 ≤ p.eps) :
    ∀ (fuel iter : ℕ) (V : List (List ℚ)) (r : HalsResult),
      matNonneg V → halsGo p rank n fuel iter V = Except.ok r → matNonneg r.V := by
  intro fuel
  induction fuel with
  | zero =>
    intro iter V r _ h
    exact absurd h (by simp [halsGo])
  | succ fuel ih =>
    intro iter V r hV h
    unfold halsGo at h
    cases hs : halsIterStep p rank n V iter with
    | error e =>
      rw [hs] at h
      exact absurd h (by simp)
    | ok out =>
      obtain ⟨V', re, re0, cr, brk⟩ := out
      have hV' : matNonneg V' := halsIterStep_nonneg hnrm hinv heps hV hs
      rw [hs] at h
      dsimp only at h
      split at h
      · injection h with h1
        rw [← h1]
        exact hV'
      · exact ih (iter + 1) V' r hV' h

lemma dotQ_nonneg {a b : List ℚ} (ha : rowNonneg a) (hb : rowNonneg b) :
    0 ≤ dotQ a b := by
  unfold dotQ
  induction a generalizing b with
  | nil => simp
  | cons x xs ih =>
    cases b with
    | nil => simp
    | cons y ys =>
      simp only [List.zipWith_cons_cons, List.sum_cons]
      refine add_nonneg (mul_nonneg (ha x (List.mem_cons_self x xs))
        (hb y (List.mem_cons_self y ys))) ?_
      exact ih (fun q hq => ha q (List.mem_cons_of_mem x hq))
        (fun q hq => hb q (List.mem_cons_of_mem y hq))

lemma hadSum_nonneg {A B : List (List ℚ)} (hA : matNonneg A) (hB : matNonneg B) :
    0 ≤ hadSum A B := by
  unfold hadSum
  induction A generalizing B with
  | nil => simp
  | cons r rs ih =>
    cases B with
    | nil => simp
    | cons s ss =>
      simp only [List.zipWith_cons_cons, List.sum_cons]
      refine add_nonneg (dotQ_nonneg (hA r (List.mem_cons_self r rs))
        (hB s (List.mem_cons_self s ss))) ?_
      exact ih (fun q hq => hA q (List.mem_cons_of_mem r hq))
        (fun q hq => hB q (List.mem_cons_of_mem s hq))

lemma colQ_nonneg {M : List (List ℚ)} (h : matNonneg M) (j : ℕ) :
    rowNonneg (colQ M j) := by
  intro q hq
  rcases List.mem_map.mp hq with ⟨r, hr, rfl⟩
  exact getD_nonneg (h r hr) j

lemma transposeM_nonneg {M : List (List ℚ)} (h : matNonneg M) :
    matNonneg (transposeM M) := by
  intro r hr
  rcases List.mem_map.mp hr with ⟨j, _, rfl⟩
  exact colQ_nonneg h j

lemma matMulQ_nonneg {A B : List (List ℚ)} (hA : matNonneg A) (hB : matNonneg B) :
    matNonneg (matMulQ A B) := by
  intro r hr
  rcases List.mem_map.mp hr with ⟨s, hs, rfl⟩
  intro q hq
  rcases List.mem_map.mp hq with ⟨j, _, rfl⟩
  exact dotQ_nonneg (hA s hs) (colQ_nonneg hB j)

lemma clipMat_nonneg (M : List (List ℚ)) : matNonneg (clipMat M) := by
  intro r hr
  rcases List.mem_map.mp hr with ⟨s, _, rfl⟩
  intro q hq
  rcases List.mem_map.mp hq with ⟨x, _, rfl⟩
  exact le_max_right x 0

lemma scalMat_nonneg {c : ℚ} {M : List (List ℚ)} (hc : 0 ≤ c) (hM : matNonneg M) :
    matNonneg (scalMat c M) := by
  intro r hr
  rcases List.mem_map.mp hr with ⟨s, hs, rfl⟩
  intro q hq
  rcases List.mem_map.mp hq with ⟨x, hx, rfl⟩
  exact mul_nonneg hc (hM s hs x hx)

lemma halsInit_nonneg {p : HalsParams}
    {sf : List (List ℚ) → List (List ℚ) → List (List ℚ)}
    (V0 : Option (List (List ℚ)))
    (hV0 : match V0 with
           | some W => matNonneg W
           | none => matNonneg p.UtM ∧ matNonneg p.UtU) :
    matNonneg (halsInit p sf V0) := by
  cases V0 with
  | some W => exact hV0
  | none =>
    obtain ⟨hM, hU⟩ := hV0
    have hVc := clipMat_nonneg (sf p.UtU p.UtM)
    refine scalMat_nonneg (div_nonneg (hadSum_nonneg hM hVc) ?_) hVc
    exact hadSum_nonneg hU (matMulQ_nonneg hVc (transposeM_nonneg hVc))

/-! ### Helper lemmas: error behaviour of the HALS loop -/

lemma halsRowCore_error_iff {p : HalsParams} {n : ℕ} {V : List (List ℚ)}
    {k e : ℕ} :
    halsRowCore p n V k = Except.error e ↔
      getEntry p.UtU k k = 0 ∧ p.nonzero_rows = true ∧ e = k := by
  unfold halsRowCore
  split
  · rename_i hne
    simp [hne]
  · rename_i hz
    split
    · rename_i hnr
      simp [not_not.mp hz, hnr, eq_comm]
    · rename_i hnr
      simp [hnr]

lemma halsRow_error_iff {p : HalsParams} {n : ℕ} {V : List (List ℚ)} {k e : ℕ} :
    halsRow p n V k = Except.error e ↔
      getEntry p.UtU k k = 0 ∧ p.nonzero_rows = true ∧ e = k := by
  unfold halsRow
  cases hc : halsRowCore p n V k with
  | error e' =>
    obtain ⟨h0, h1, rfl⟩ := halsRowCore_error_iff.mp hc
    simp [h0, h1, eq_comm]
  | ok out =>
    obtain ⟨V1, d⟩ := out
    dsimp only
    constructor
    · intro h
      exact absurd h (by simp)
    · intro hr
      have hcore : halsRowCore p n V k = Except.error k :=
        halsRowCore_error_iff.mpr ⟨hr.1, hr.2.1, rfl⟩
      rw [hcore] at hc
      exact Except.noConfusion hc

lemma sweepGo_error_iff {p : HalsParams} {n : ℕ} :
    ∀ (ks : List ℕ) (V : List (List ℚ)) (re : ℚ) (e : ℕ),
      sweepGo p n ks V re = Except.error e ↔
        p.nonzero_rows = true ∧
          ks.find? (fun k => decide (getEntry p.UtU k k = 0)) = some e := by
  intro ks
  induction ks with
  | nil =>
    intro V re e
    simp [sweepGo]
  | cons k ks ih =>
    intro V re e
    unfold sweepGo
    by_cases hz : getEntry p.UtU k k = 0
    · by_cases hnr : p.nonzero_rows = true
      · have hr : halsRow p n V k = Except.error k :=
          halsRow_error_iff.mpr ⟨hz, hnr, rfl⟩
        rw [hr]
        rw [List.find?_cons_of_pos _ (by simp [hz])]
        simp [hnr, eq_comm]
      · have hcore : halsRowCore p n V k = Except.ok (V, 0) := by
          unfold halsRowCore
          rw [if_neg (by simp [hz]), if_neg hnr]
        have hr : halsRow p n V k =
            Except.ok (if p.normalize then halsNormalizeRow p n V k else V, 0) := by
          unfold halsRow
          rw [hcore]
        rw [hr]
        dsimp only
        rw [ih]
        simp [hnr]
    · cases hr : halsRow p n V k with
      | error e' =>
        exact absurd (halsRow_error_iff.mp hr).1 hz
      | ok out =>
        obtain ⟨V1, d⟩ := out
        dsimp only
        rw [ih, List.find?_cons_of_neg _ (by simp [hz])]

lemma halsIterStep_error_eq {p : HalsParams} {rank n : ℕ} {V : List (List ℚ)}
    {iter : ℕ} {er : HalsErr}
    (h : halsIterStep p rank n V iter = Except.error er) :
    ∃ e, er = HalsErr.degenerate e ∧ halsSweep p rank n V = Except.error e := by
  unfold halsIterStep at h
  cases hs : halsSweep p rank n V with
  | error e =>
    rw [hs] at h
    dsimp only at h
    injection h with h1
    exact ⟨e, h1.symm, rfl⟩
  | ok out =>
    rw [hs] at h
    exact absurd h (by simp)

lemma halsIterStep_ok_sweep {p : HalsParams} {rank n : ℕ} {V : List (List ℚ)}
    {iter : ℕ} {out : List (List ℚ) × ℚ × ℚ × ℚ × Bool}
    (h : halsIterStep p rank n V iter = Except.ok out) :
    halsSweep p rank n V = Except.ok (out.1, out.2.1) := by
  unfold halsIterStep at h
  cases hs : halsSweep p rank n V with
  | error e =>
    rw [hs] at h
    exact absurd h (by simp)
  | ok sout =>
    obtain ⟨V1, re1⟩ := sout
    rw [hs] at h
    dsimp only at h
    injection h with h1
    rw [← h1]

lemma halsIterStep_fields {p : HalsParams} {rank n : ℕ} {V V' : List (List ℚ)}
    {iter : ℕ} {re re0 cr : ℚ} {brk : Bool}
    (h : halsIterStep p rank n V iter = Except.ok (V', re, re0, cr, brk)) :
    re0 = (if iter = 1 then re else 0) ∧
      cr = specComplexityFormula V'.length (V'.headD []).length rank ∧
      brk = (if p.exactMode then decide (re < p.tol * re0)
             else decide (re < p.tol * re0) || decide ((iter : ℚ) > 1 + (1/2) * cr)) := by
  unfold halsIterStep at h
  cases hs : halsSweep p rank n V with
  | error e =>
    rw [hs] at h
    exact absurd h (by simp)
  | ok sout =>
    obtain ⟨V1, re1⟩ := sout
    rw [hs] at h
    dsimp only at h
    injection h with h1
    injection h1 with h2 h3
    injection h3 with h4 h5
    injection h5 with h6 h7
    injection h7 with h8 h9
    subst h2 h4 h6 h8 h9
    exact ⟨rfl, rfl, rfl⟩

lemma halsGo_degenerate_forward {p : HalsParams} {rank n : ℕ} :
    ∀ (fuel iter : ℕ) (V : List (List ℚ)) (e : ℕ),
      halsGo p rank n fuel iter V = Except.error (HalsErr.degenerate e) →
        p.nonzero_rows = true ∧
          (List.range rank).find? (fun k => decide (getEntry p.UtU k k = 0)) = some e := by
  intro fuel
  induction fuel with
  | zero =>
    intro iter V e h
    rw [halsGo] at h
    injection h with h1
    exact absurd h1 (by simp)
  | succ fuel ih =>
    intro iter V e h
    unfold halsGo at h
    cases hs : halsIterStep p rank n V iter with
    | error er =>
      rw [hs] at h
      dsimp only at h
      injection h with h1
      obtain ⟨e', he', hsw⟩ := halsIterStep_error_eq hs
      rw [h1] at he'
      injection he' with he2
      subst he2
      exact (sweepGo_error_iff (List.range rank) V 0 e).mp hsw
    | ok out =>
      obtain ⟨V', re, re0, cr, brk⟩ := out
      rw [hs] at h
      dsimp only at h
      split at h
      · exact absurd h (by simp)
      · exact ih (iter + 1) V' e h

lemma halsGo_degenerate_backward {p : HalsParams} {rank n : ℕ}
    {e : ℕ} (hnz : p.nonzero_rows = true)
    (hf : (List.range rank).find? (fun k => decide (getEntry p.UtU k k = 0)) = some e)
    (fuel iter : ℕ) (V : List (List ℚ)) :
    halsGo p rank n (fuel + 1) iter V = Except.error (HalsErr.degenerate e) := by
  have hsw : halsSweep p rank n V = Except.error e :=
    (sweepGo_error_iff (List.range rank) V 0 e).mpr ⟨hnz, hf⟩
  have hstep : halsIterStep p rank n V iter = Except.error (HalsErr.degenerate e) := by
    unfold halsIterStep
    rw [hsw]
  unfold halsGo
  rw [hstep]

/-! ### Helper lemmas: rows skipped by a zero Gram diagonal are preserved -/

lemma getD_set_ne {α : Type} [Inhabited α] :
    ∀ (l : List α) (i k : ℕ), i ≠ k → ∀ (r : α), (l.set i r).getD k default = l.getD k default := by
  intro l
  induction l with
  | nil =>
    intro i k _ r
    simp
  | cons a t ih =>
    intro i k hik r
    cases i with
    | zero =>
      cases k with
      | zero => exact absurd rfl hik
      | succ k => simp
    | succ i =>
      cases k with
      | zero => simp
      | succ k => simpa using ih i k (fun hh => hik (by rw [hh])) r

lemma halsSafety_getD_other {p : HalsParams} {n : ℕ} {V1 : List (List ℚ)}
    {newRow : List ℚ} {k m : ℕ} (hmk : m ≠ k) :
    (halsSafety p n V1 newRow k).getD m [] = V1.getD m [] := by
  unfold halsSafety
  split
  · exact getD_set_ne V1 k m (fun hh => hmk hh.symm) _
  · rfl

lemma halsNormalizeRow_getD_other {p : HalsParams} {n : ℕ} {V1 : List (List ℚ)}
    {k m : ℕ} (hmk : m ≠ k) :
    (halsNormalizeRow p n V1 k).getD m [] = V1.getD m [] := by
  unfold halsNormalizeRow
  split
  · exact getD_set_ne V1 k m (fun hh => hmk hh.symm) _
  · exact getD_set_ne V1 k m (fun hh => hmk hh.symm) _

lemma halsRow_getD_other {p : HalsParams} {n : ℕ} {V V' : List (List ℚ)}
    {k' m : ℕ} {d : ℚ} (hmk : m ≠ k')
    (h : halsRow p n V k' = Except.ok (V', d)) : V'.getD m [] = V.getD m [] := by
  unfold halsRow at h
  cases hc : halsRowCore p n V k' with
  | error e =>
    rw [hc] at h
    exact absurd h (by simp)
  | ok out =>
    obtain ⟨V1, d1⟩ := out
    have hV1 : V1.getD m [] = V.getD m [] := by
      unfold halsRowCore at hc
      split at hc
      · injection hc with h1
        injection h1 with h2 h3
        rw [← h2, halsSafety_getD_other hmk]
        exact getD_set_ne V k' m (fun hh => hmk hh.symm) _
      · split at hc
        · exact absurd hc (by simp)
        · injection hc with h1
          injection h1 with h2 h3
          rw [← h2]
    rw [hc] at h
    dsimp only at h
    injection h with h1
    injection h1 with h2 h3
    rw [← h2]
    split
    · rw [halsNormalizeRow_getD_other hmk, hV1]
    · exact hV1

lemma halsRow_skip {p : HalsParams} {n : ℕ} {V : List (List ℚ)} {k : ℕ}
    (hz : getEntry p.UtU k k = 0) (hnr : p.nonzero_rows = false)
    (hnorm : p.normalize = false) :
    halsRow p n V k = Except.ok (V, 0) := by
  have hcore : halsRowCore p n V k = Except.ok (V, 0) := by
    unfold halsRowCore
    rw [if_neg (by simp [hz]), if_neg (by simp [hnr])]
  unfold halsRow
  rw [hcore, hnorm]
  simp

lemma sweepGo_getD_skip {p : HalsParams} {n : ℕ} {k : ℕ}
    (hz : getEntry p.UtU k k = 0) (hnr : p.nonzero_rows = false)
    (hnorm : p.normalize = false) :
    ∀ (ks : List ℕ) (V : List (List ℚ)) (re : ℚ) (V' : List (List ℚ)) (re' : ℚ),
      sweepGo p n ks V re = Except.ok (V', re') → V'.getD k [] = V.getD k [] := by
  intro ks
  induction ks with
  | nil =>
    intro V re V' re' h
    injection h with h1
    injection h1 with h2 h3
    rw [← h2]
  | cons k' ks ih =>
    intro V re V' re' h
    unfold sweepGo at h
    cases hr : halsRow p n V k' with
    | error e =>
      rw [hr] at h
      exact absurd h (by simp)
    | ok out =>
      obtain ⟨V1, d⟩ := out
      rw [hr] at h
      dsimp only at h
      have h1 : V1.getD k [] = V.getD k [] := by
        by_cases hkk : k = k'
        · subst hkk
          rw [halsRow_skip hz hnr hnorm] at hr
          injection hr with h2
          injection h2 with h3 h4
          rw [← h3]
        · exact halsRow_getD_other hkk hr
      rw [ih V1 (re + d) V' re' h, h1]

lemma halsGo_getD_skip {p : HalsParams} {rank n : ℕ} {k : ℕ}
    (hz : getEntry p.UtU k k = 0) (hnr : p.nonzero_rows = false)
    (hnorm : p.normalize = false) :
    ∀ (fuel iter : ℕ) (V : List (List ℚ)) (r : HalsResult),
      halsGo p rank n fuel iter V = Except.ok r → r.V.getD k [] = V.getD k [] := by
  intro fuel
  induction fuel with
  | zero =>
    intro iter V r h
    exact absurd h (by simp [halsGo])
  | succ fuel ih =>
    intro iter V r h
    unfold halsGo at h
    cases hs : halsIterStep p rank n V iter with
    | error e =>
      rw [hs] at h
      exact absurd h (by simp)
    | ok out =>
      obtain ⟨V', re, re0, cr, brk⟩ := out
      have hsw := halsIterStep_ok_sweep hs
      have hpres : V'.getD k [] = V.getD k [] :=
        sweepGo_getD_skip hz hnr hnorm (List.range rank) V 0 V' re hsw
      rw [hs] at h
      dsimp only at h
      split at h
      · injection h with h1
        rw [← h1]
        exact hpres
      · rw [ih (iter + 1) V' r h, hpres]

/-! ### Helper lemmas: iteration bounds and the break condition -/

lemma halsGo_iteration_lt {p : HalsParams} {rank n : ℕ} :
    ∀ (fuel iter : ℕ) (V : List (List ℚ)) (r : HalsResult),
      halsGo p rank n fuel iter V = Except.ok r → r.iteration < iter + fuel := by
  intro fuel
  induction fuel with
  | zero =>
    intro iter V r h
    exact absurd h (by simp [halsGo])
  | succ fuel ih =>
    intro iter V r h
    unfold halsGo at h
    cases hs : halsIterStep p rank n V iter with
    | error e =>
      rw [hs] at h
      exact absurd h (by simp)
    | ok out =>
      obtain ⟨V', re, re0, cr, brk⟩ := out
      rw [hs] at h
      dsimp only at h
      split at h
      · injection h with h1
        rw [← h1]
        dsimp only
        omega
      · have := ih (iter + 1) V' r h
        omega

lemma halsGo_complexity_eq {p : HalsParams} {rank n : ℕ} :
    ∀ (fuel iter : ℕ) (V : List (List ℚ)) (r : HalsResult),
      halsGo p rank n fuel iter V = Except.ok r →
        r.complexity = specComplexityFormula r.V.length (r.V.headD []).length rank := by
  intro fuel
  induction fuel with
  | zero =>
    intro iter V r h
    exact absurd h (by simp [halsGo])
  | succ fuel ih =>
    intro iter V r h
    unfold halsGo at h
    cases hs : halsIterStep p rank n V iter with
    | error e =>
      rw [hs] at h
      exact absurd h (by simp)
    | ok out =>
      obtain ⟨V', re, re0, cr, brk⟩ := out
      rw [hs] at h
      dsimp only at h
      split at h
      · injection h with h1
        rw [← h1]
        exact (halsIterStep_fields hs).2.1
      · exact ih (iter + 1) V' r h

lemma halsGo_early_break {p : HalsParams} {rank n : ℕ}
    (hex : p.exactMode = false) :
    ∀ (fuel iter : ℕ) (V : List (List ℚ)) (r : HalsResult),
      halsGo p rank n fuel iter V = Except.ok r → r.iteration + 1 < iter + fuel →
        (r.rec_error < p.tol * (if r.iteration = 1 then r.rec_error else 0) ∨
          ((r.iteration : ℚ) > 1 + (1/2) * r.complexity)) := by
  intro fuel
  induction fuel with
  | zero =>
    intro iter V r h _
    exact absurd h (by simp [halsGo])
  | succ fuel ih =>
    intro iter V r h hlt
    unfold halsGo at h
    cases hs : halsIterStep p rank n V iter with
    | error e =>
      rw [hs] at h
      exact absurd h (by simp)
    | ok out =>
      obtain ⟨V', re, re0, cr, brk⟩ := out
      rw [hs] at h
      dsimp only at h
      split at h
      · rename_i hbrk
        injection h with h1
        obtain ⟨hre0, _, hbdef⟩ := halsIterStep_fields hs
        rcases Bool.or_eq_true _ _ |>.mp hbrk with hb | hfz
        · rw [hbdef, hex] at hb
          simp only [Bool.false_eq_true, if_false, Bool.or_eq_true,
            decide_eq_true_eq] at hb
          rw [← h1]
          dsimp only
          rw [← hre0]
          rcases hb with hb1 | hb2
          · exact Or.inl hb1
          · exact Or.inr hb2
        · rw [← h1] at hlt
          dsimp only at hlt
          have hf0 : fuel = 0 := of_decide_eq_true hfz
          exfalso
          omega
      · have := ih (iter + 1) V' r h (by omega)
        exact this

lemma halsGo_break_now {p : HalsParams} {rank n : ℕ} {V V' : List (List ℚ)}
    {iter : ℕ} {re re0 cr : ℚ} (fuel : ℕ)
    (hstep : halsIterStep p rank n V iter = Except.ok (V', re, re0, cr, true)) :
    halsGo p rank n (fuel + 1) iter V = Except.ok ⟨V', re, iter, cr⟩ := by
  unfold halsGo
  rw [hstep]
  simp

/-! ### Small auxiliary facts -/

instance (r : List ℚ) : Decidable (rowNonneg r) :=
  inferInstanceAs (Decidable (∀ q ∈ r, 0 ≤ q))

instance (M : List (List ℚ)) : Decidable (matNonneg M) :=
  inferInstanceAs (Decidable (∀ r ∈ M, rowNonneg r))

lemma getD_map_range {n j : ℕ} (f : ℕ → ℚ) (hj : j < n) :
    ((List.range n).map f).getD j 0 = f j := by
  rw [List.getD_eq_getElem?_getD, List.getElem?_map, List.getElem?_range hj]
  rfl

lemma map_range_congr {f g : ℕ → ℚ} :
    ∀ (n : ℕ), (∀ j, j < n → f j = g j) →
      (List.range n).map f = (List.range n).map g := by
  intro n
  induction n with
  | zero => intro _; rfl
  | succ n ih =>
    intro h
    rw [List.range_succ, List.map_append, List.map_append,
      ih (fun j hj => h j (by omega))]
    simp [h n (by omega)]

lemma halsEff_nrm (p : HalsParams) : (halsEff p).nrm = p.nrm := by
  unfold halsEff
  split <;> rfl

lemma halsEff_invSqrt (p : HalsParams) : (halsEff p).invSqrt = p.invSqrt := by
  unfold halsEff
  split <;> rfl

lemma halsEff_eps (p : HalsParams) : (halsEff p).eps = p.eps := by
  unfold halsEff
  split <;> rfl

lemma halsEff_UtU (p : HalsParams) : (halsEff p).UtU = p.UtU := by
  unfold halsEff
  split <;> rfl

lemma halsEff_nonzero_rows (p : HalsParams) :
    (halsEff p).nonzero_rows = p.nonzero_rows := by
  unfold halsEff
  split <;> rfl

lemma halsEff_normalize (p : HalsParams) : (halsEff p).normalize = p.normalize := by
  unfold halsEff
  split <;> rfl

lemma halsEff_n_iter_max (p : HalsParams) :
    (halsEff p).n_iter_max = if p.exactMode then 5000 else p.n_iter_max := by
  unfold halsEff
  split <;> rfl

lemma halsEff_of_not_exact {p : HalsParams} (h : p.exactMode = false) :
    halsEff p = p := by
  unfold halsEff
  rw [h]
  simp

/-! ### Concrete inputs used by the claims -/

/-- External `tl.solve` oracle used in the concrete runs below; on their
Gram matrices (identities), the exact solution of `UtU · X = UtM` is `UtM`
itself, which the runs certify by checking `UtU · (solveOracle UtU UtM) =
UtM` explicitly. -/
def solveOracle : List (List ℚ) → List (List ℚ) → List (List ℚ) := fun _ M => M

/-- A minimal well-posed call: `UtM = [[1]]`, `UtU = [[1]]`, warm start
`[[1]]`, `n_iter_max = 5`, `tol = 0`, defaults otherwise. -/
def tinyParams : HalsParams :=
  { UtM := [[1]], UtU := [[1]], n_iter_max := 5, tol := 0, sparsity := none,
    normalize := false, nonzero_rows := false, exactMode := false, eps := 0,
    nrm := fun _ => 0, invSqrt := fun _ => 0 }

/-- The concrete scenario of claim C5: `UtM = [[2,0],[0,3]]`,
`UtU` the identity, defaults (`n_iter_max = 500`, `tol = 10e-8`), no warm
start. -/
def idParams : HalsParams :=
  { UtM := [[2, 0], [0, 3]], UtU := [[1, 0], [0, 1]], n_iter_max := 500,
    tol := 10 / 100000000, sparsity := none, normalize := false,
    nonzero_rows := false, exactMode := false, eps := 0,
    nrm := fun _ => 0, invSqrt := fun _ => 0 }

/-- The exact-mode run used against claim C2: `UtM = [[3],[3]]`,
`UtU = [[2,1],[1,2]]`, warm start `[[0],[0]]`, `exact=True`. -/
def gram2Params : HalsParams :=
  { UtM := [[3], [3]], UtU := [[2, 1], [1, 2]], n_iter_max := 500,
    tol := 10 / 100000000, sparsity := none, normalize := false,
    nonzero_rows := false, exactMode := true, eps := 0,
    nrm := fun _ => 0, invSqrt := fun _ => 0 }

/-- A degenerate input for claim C6: `UtU = [[0]]` with
`nonzero_rows = True`. -/
def zeroDiagParams : HalsParams :=
  { UtM := [[1]], UtU := [[0]], n_iter_max := 5, tol := 0, sparsity := none,
    normalize := false, nonzero_rows := true, exactMode := false, eps := 0,
    nrm := fun _ => 0, invSqrt := fun _ => 0 }

/-- Rational square-root oracle (a rounding of `np.sqrt`) used by the
concrete FISTA trace: `sqrt 5 ≈ 2.236` and
`sqrt(1 + 4·(809/500)²) = sqrt(716981/62500) ≈ 3.387`. -/
def fistaCexSqrt : ℚ → ℚ := fun q =>
  if q = 5 then 559 / 250
  else if q = 716981 / 62500 then 3387 / 1000
  else 0

/-- Concrete single-mode FISTA instance: `B = [[[1]]]`, `A = [0]`,
`gradient_step = 9/10`. -/
def fistaCexParams : FistaParams :=
  { BtA := btaOf [[1]] [0], G := gramOf [[1]], step := 9 / 10,
    sqrtF := fistaCexSqrt, nrm := fun v => (v.map (fun q => |q|)).sum, n := 1 }

/-! ### Claim C1 -/

/-- C1, counterexample.  The claim states that the active-set loop head
reaches a terminal state exactly when `min(w) ≥ 0`; at the concrete
gradient `w = [-1, 2]` (with `P = []`, `R = [0, 1]`) the code's decision
(lines 283-292) is terminal although `min(w) = -1 < 0`, so the claimed
equivalence fails. -/
theorem C1_counterexample :
    ¬ ((activeSetHead [-1, 2] [] [0, 1] = ASDecision.terminal) ↔
        0 ≤ listMin [-1, 2]) := by
  decide

/-- C1, amended.  At the start of every iteration the solver stops (breaks
out of the loop, a terminal state) exactly when `min(w) < 0`; whenever
`min(w) ≥ 0` it instead continues, moving `argmax(w)` from `R` into `P`
(a no-op when that index is already the most recently added passive
index). -/
theorem C1_head_decision :
    ∀ (w : List ℚ) (P R : List ℕ),
      (activeSetHead w P R = ASDecision.terminal ↔ listMin w < 0) ∧
      (¬ listMin w < 0 → activeSetHead w P R = pivotTarget w P R) := by
  intro w P R
  by_cases hm : listMin w < 0
  · refine ⟨⟨fun _ => hm, fun _ => ?_⟩, fun h' => absurd hm h'⟩
    unfold activeSetHead
    rw [if_pos hm]
  · constructor
    · constructor
      · intro hcontra
        unfold activeSetHead at hcontra
        rw [if_neg hm] at hcontra
        split at hcontra
        · exact ASDecision.noConfusion hcontra
        · split at hcontra
          · exact ASDecision.noConfusion hcontra
          · exact ASDecision.noConfusion hcontra
      · intro hmm
        exact absurd hmm hm
    · intro _
      unfold activeSetHead pivotTarget
      rw [if_neg hm]
      by_cases hP : P = []
      · rw [if_pos (by rw [hP]; rfl), if_pos hP]
      · rw [if_neg (fun hh => hP (List.length_eq_zero.mp hh)), if_neg hP]

/-- C1, witness: at `w = [1, 0]` (all gradient entries nonnegative) the
head pivots, moving `argmax(w) = 0` from `R` to `P`. -/
theorem C1_witness :
    activeSetHead [1, 0] [] [0, 1] = ASDecision.pivot [0] [1] := by
  rw [(C1_head_decision [1, 0] [] [0, 1]).2 (by decide)]
  decide

/-! ### Claim C2 -/

unseal Rat.add Rat.mul Rat.inv Rat.sub in
/-- C2, code evaluation at the failing input `UtM = [[3],[3]]`,
`UtU = [[2,1],[1,2]]`, warm start `[[0],[0]]`, `exact=True`
(`tol = 10e-12`, cap `5000`).  Sweep errors decay as
`rec_error_t = 45/16^(t+1)`.  The four conjuncts show: (i) at iteration 1
the code captures `rec_error0 = 45/256` (the sweep-1 error); (ii) at
iteration 2 the `rec_error0` used by the break test is `0`, not `45/256` —
line 205 resets it every sweep, so the captured baseline never survives,
contradicting the claim (and the docstring's early-stop criterion
`err_k > delta*err_0`); (iii) running the loop for 13 iterations reaches
iteration index 12 with no break; (iv) yet the sweep-11 error
`45/16^12` already satisfies `rec_error < tol·rec_error0` for the claimed
persistent baseline `rec_error0 = 45/256`, i.e. under the claim the loop
would have stopped at iteration 11. -/
theorem C2_baseline_evaluation :
    halsIterStep (halsEff gram2Params) 2 1 [[3/2], [3/4]] 1 =
        Except.ok ([[9/8], [15/16]], 45/256, 45/256, 5/3, false) ∧
      halsIterStep (halsEff gram2Params) 2 1 [[9/8], [15/16]] 2 =
        Except.ok ([[33/32], [63/64]], 45/4096, 0, 5/3, false) ∧
      halsGo (halsEff gram2Params) 2 1 13 0 [[0], [0]] =
        Except.ok ⟨[[33554433/33554432], [67108863/67108864]],
          45/4503599627370496, 12, 5/3⟩ ∧
      (45/281474976710656 : ℚ) < (10/1000000000000) * (45/256) := by
  refine ⟨by decide, by decide, by decide, by decide⟩

/-! ### Claim C3 -/

unseal Rat.add Rat.mul Rat.inv Rat.sub in
/-- C3, counterexample.  In the concrete trace of `fistaCexParams` from
`x = [100]`, the state reached after two iterations has
`x = [1] ≠ x_upd = [-6737/4387]`, and the candidate step computed by
line 373 at iteration 2 is `[-60633/43870]`, which differs from the
claimed elementwise `min(gradient_step·g, x_extrapolated) =
[-6737/4387]`; the last two conjuncts check that the loop's break test is
false at iterations 0 and 1, so the state is actually reached. -/
theorem C3_counterexample :
    (fistaBody fistaCexParams (fistaIterate fistaCexParams [100] 2) 2).2.1 ≠
        (List.range 1).map (fun j =>
          min (fistaCexParams.step *
              (fistaGradient fistaCexParams
                (fistaIterate fistaCexParams [100] 2).x_upd).getD j 0)
            ((fistaIterate fistaCexParams [100] 2).x_upd.getD j 0)) ∧
      (fistaBody fistaCexParams (fistaIterate fistaCexParams [100] 0) 0).2.2 = false ∧
      (fistaBody fistaCexParams (fistaIterate fistaCexParams [100] 1) 1).2.2 = false := by
  refine ⟨by decide, by decide, by decide⟩

/-- C3, amended.  In every iteration of `fista_nnls` the candidate step is
`delta[j] = gradient_step·g[j]` when `gradient_step·g[j] < x[j]` — the
comparison is against the PREVIOUS iterate `x`, not the extrapolated
point — and `x_extrapolated[j]` otherwise; the new iterate is
`x_new = x_extrapolated - delta`.  This coincides with the claimed
elementwise `min(gradient_step·g, x_extrapolated)` exactly when
`x = x_extrapolated` (as at iterations 0 and 1). -/
theorem C3_step_formula :
    ∀ (pp : FistaParams) (s : FistaState) (iter : ℕ),
      (fistaBody pp s iter).2.1 = fistaDeltaAmended pp s ∧
      (fistaBody pp s iter).1.x = (List.range pp.n).map (fun j =>
        s.x_upd.getD j 0 - (fistaDeltaAmended pp s).getD j 0) ∧
      (s.x = s.x_upd →
        (fistaBody pp s iter).2.1 = (List.range pp.n).map (fun j =>
          min (pp.step * (fistaGradient pp s.x_upd).getD j 0)
            (s.x_upd.getD j 0))) := by
  intro pp s iter
  refine ⟨rfl, ?_, ?_⟩
  · show (List.range pp.n).map (fistaXnewEntry pp s) = _
    refine map_range_congr pp.n (fun j hj => ?_)
    unfold fistaXnewEntry
    simp only [fistaDeltaAmended]
    rw [getD_map_range _ hj]
    rfl
  · intro hxx
    show (List.range pp.n).map (fistaDeltaEntry pp s) = _
    refine map_range_congr pp.n (fun j hj => ?_)
    unfold fistaDeltaEntry
    rw [hxx]
    rcases lt_or_le (pp.step * (fistaGradient pp s.x_upd).getD j 0)
      (s.x_upd.getD j 0) with h | h
    · rw [if_pos h]
      exact (min_eq_left h.le).symm
    · rw [if_neg (not_lt.mpr h)]
      exact (min_eq_right h).symm

/-- C3, witness: with `x = x_extrapolated` (the initial state) the code's
step equals the elementwise minimum of the claim. -/
theorem C3_witness :
    (fistaBody fistaCexParams (fistaIterate fistaCexParams [100] 0) 0).2.1 =
      (List.range 1).map (fun j =>
        min (fistaCexParams.step *
            (fistaGradient fistaCexParams
              (fistaIterate fistaCexParams [100] 0).x_upd).getD j 0)
          ((fistaIterate fistaCexParams [100] 0).x_upd.getD j 0)) :=
  (C3_step_formula fistaCexParams (fistaIterate fistaCexParams [100] 0) 0).2.2 rfl

/-! ### Claim C4 -/

/-- C4.  The first two conjuncts: `hals_nnls` returns an elementwise
nonnegative `V` for every parameter set whose external primitives are
sign-correct (`tl.norm ≥ 0`, `1/sqrt(n) ≥ 0`, machine epsilon ≥ 0) — with
any supplied warm start that is elementwise nonnegative, and also on the
default-initialization path whenever `UtM` and `UtU` are nonnegative (the
documented precondition).  The third conjunct: every invocation of
`active_set_nnls` fails during setup with a `NameError`, so it never
returns an `x` at all and its nonnegativity guarantee holds vacuously. -/
theorem C4_nonnegativity :
    (∀ (p : HalsParams) (sf : List (List ℚ) → List (List ℚ) → List (List ℚ))
        (W : List (List ℚ)) (r : HalsResult),
        (∀ v, 0 ≤ p.nrm v) → (∀ m, 0 ≤ p.invSqrt m) → 0 ≤ p.eps →
        matNonneg W → hals_nnls p sf (some W) = Except.ok r → matNonneg r.V) ∧
      (∀ (p : HalsParams) (sf : List (List ℚ) → List (List ℚ) → List (List ℚ))
        (r : HalsResult),
        (∀ v, 0 ≤ p.nrm v) → (∀ m, 0 ≤ p.invSqrt m) → 0 ≤ p.eps →
        matNonneg p.UtM → matNonneg p.UtU →
        hals_nnls p sf none = Except.ok r → matNonneg r.V) ∧
      active_set_nnls_outcome = some (PyFailure.nameError "multi_mode_dot") := by
  refine ⟨?_, ?_, rfl⟩
  · intro p sf W r hnrm hinv heps hW h
    unfold hals_nnls at h
    exact halsGo_nonneg (p := halsEff p)
      (by rw [halsEff_nrm]; exact hnrm)
      (by rw [halsEff_invSqrt]; exact hinv)
      (by rw [halsEff_eps]; exact heps)
      _ _ _ _ hW h
  · intro p sf r hnrm hinv heps hM hU h
    unfold hals_nnls at h
    exact halsGo_nonneg (p := halsEff p)
      (by rw [halsEff_nrm]; exact hnrm)
      (by rw [halsEff_invSqrt]; exact hinv)
      (by rw [halsEff_eps]; exact heps)
      _ _ _ _ (halsInit_nonneg none ⟨hM, hU⟩) h

unseal Rat.add Rat.mul Rat.inv Rat.sub in
/-- C4, witness: the minimal run converges and its result `[[1]]` is
elementwise nonnegative. -/
theorem C4_witness :
    ∃ r, hals_nnls tinyParams solveOracle (some [[1]]) = Except.ok r ∧
      matNonneg r.V :=
  ⟨⟨[[1]], 0, 3, 2⟩, by decide,
    C4_nonnegativity.1 tinyParams solveOracle [[1]] ⟨[[1]], 0, 3, 2⟩
      (fun _ => le_refl 0) (fun _ => le_refl 0) (le_refl 0)
      (by decide) (by decide)⟩

/-! ### Claim C5 -/

unseal Rat.add Rat.mul Rat.inv Rat.sub in
/-- C5, counterexample.  On `UtM = [[2,0],[0,3]]`, `UtU = I` with default
options and no warm start, the code returns at iteration 3, not at
iteration ≤ 1: the error-based test compares against a zero baseline and
never fires, and the loop only exits once
`iteration > 1 + 0.5·complexity_ratio = 13/6`. -/
theorem C5_counterexample :
    ∃ r, hals_nnls idParams solveOracle none = Except.ok r ∧
      ¬ r.iteration ≤ 1 :=
  ⟨⟨[[2, 0], [0, 3]], 0, 3, 7/3⟩, by decide, by decide⟩

unseal Rat.add Rat.mul Rat.inv Rat.sub in
/-- C5, amended.  The run returns exactly
`(V, rec_error, iteration, complexity_ratio) = ([[2,0],[0,3]], 0, 3, 7/3)`:
`V` equals `UtM` (already the exact nonnegative solution) and
`rec_error = 0`, as claimed, but the iteration count is 3 (exit through
the complexity cap), not ≤ 1.  The second conjunct certifies the solve
oracle at this input: `UtU · solve(UtU, UtM) = UtM`. -/
theorem C5_concrete_run :
    hals_nnls idParams solveOracle none =
        Except.ok ⟨[[2, 0], [0, 3]], 0, 3, 7/3⟩ ∧
      matMulQ idParams.UtU (solveOracle idParams.UtU idParams.UtM) =
        idParams.UtM := by
  refine ⟨by decide, by decide⟩

/-! ### Claim C6 -/

/-- C6.  With a supplied warm start (so that the external `tl.solve` of
the default initialization is not involved), `hals_nnls` raises the
degenerate-input error if and only if `nonzero_rows = True` and some row
`k < rank` has `UtU[k,k] = 0`; the raised index is the first such `k`
(second conjunct); and with `nonzero_rows = False` (and normalization
off), a zero-diagonal row is skipped: the returned `V` keeps that row of
the warm start unchanged (third conjunct). -/
theorem C6_degenerate_iff :
    ∀ (p : HalsParams) (sf : List (List ℚ) → List (List ℚ) → List (List ℚ))
      (V0 : List (List ℚ)), 1 ≤ (halsEff p).n_iter_max →
      ((∃ e, hals_nnls p sf (some V0) = Except.error (HalsErr.degenerate e)) ↔
        (p.nonzero_rows = true ∧ ∃ k, k < p.UtM.length ∧ getEntry p.UtU k k = 0)) ∧
      (∀ e, hals_nnls p sf (some V0) = Except.error (HalsErr.degenerate e) →
        (List.range p.UtM.length).find?
          (fun k => decide (getEntry p.UtU k k = 0)) = some e) ∧
      (p.nonzero_rows = false → p.normalize = false →
        ∀ r, hals_nnls p sf (some V0) = Except.ok r →
          ∀ k, getEntry p.UtU k k = 0 → r.V.getD k [] = V0.getD k []) := by
  intro p sf V0 hfuel
  have hUtU := halsEff_UtU p
  have hnzr := halsEff_nonzero_rows p
  have hnorm' := halsEff_normalize p
  refine ⟨⟨?_, ?_⟩, ?_, ?_⟩
  · rintro ⟨e, he⟩
    unfold hals_nnls at he
    have hfd := halsGo_degenerate_forward _ _ _ _ he
    rw [hUtU, hnzr] at hfd
    obtain ⟨hnz, hfind⟩ := hfd
    have hpred := List.find?_some hfind
    exact ⟨hnz, e, List.mem_range.mp (List.mem_of_find?_eq_some hfind),
      of_decide_eq_true hpred⟩
  · rintro ⟨hnz, k, hk, hzk⟩
    cases hfind : (List.range p.UtM.length).find?
        (fun k => decide (getEntry p.UtU k k = 0)) with
    | none =>
      exfalso
      have := List.find?_eq_none.mp hfind k (List.mem_range.mpr hk)
      simp [hzk] at this
    | some e =>
      refine ⟨e, ?_⟩
      unfold hals_nnls
      obtain ⟨f, hf⟩ : ∃ f, (halsEff p).n_iter_max = f + 1 :=
        ⟨(halsEff p).n_iter_max - 1, by omega⟩
      rw [hf]
      exact halsGo_degenerate_backward (by rw [hnzr]; exact hnz)
        (by rw [hUtU]; exact hfind) f 0 _
  · intro e he
    unfold hals_nnls at he
    have hfd := halsGo_degenerate_forward _ _ _ _ he
    rw [hUtU] at hfd
    exact hfd.2
  · intro hnr hnorm r hr k hzk
    unfold hals_nnls at hr
    exact halsGo_getD_skip (p := halsEff p)
      (by rw [hUtU]; exact hzk) (by rw [hnzr]; exact hnr)
      (by rw [hnorm']; exact hnorm) _ _ _ _ hr

/-- C6, witness: the positive case at `UtU = [[0]]`, `nonzero_rows=True`
raises with index 0, and the negative case — `tinyParams` has no zero
diagonal — returns without error. -/
theorem C6_witness :
    (∃ e, hals_nnls zeroDiagParams solveOracle (some [[1]]) =
        Except.error (HalsErr.degenerate e)) ∧
      ¬ (∃ e, hals_nnls tinyParams solveOracle (some [[1]]) =
        Except.error (HalsErr.degenerate e)) :=
  ⟨(C6_degenerate_iff zeroDiagParams solveOracle [[1]] (by decide)).1.mpr
      ⟨rfl, 0, by decide, by decide⟩,
    fun hex =>
      absurd ((C6_degenerate_iff tinyParams solveOracle [[1]] (by decide)).1.mp hex).1
        (by decide)⟩

/-! ### Claim C7 -/

/-- C7.  The module's only import is `import tensorly as tl`, so the
unqualified `multi_mode_dot` (and `np`) are unbound: every invocation of
`active_set_nnls` fails with `NameError: multi_mode_dot` at line 273
during setup, and every invocation of `fista_nnls` fails before returning
— at line 363 with the same `NameError` when `x` is provided, and at
line 356 with a `TypeError` (`tl.zeros()` called with no shape) when `x`
is omitted.  Neither solver can ever return a result. -/
theorem C7_unbound_names :
    active_set_nnls_outcome = some (PyFailure.nameError "multi_mode_dot") ∧
      fista_nnls_outcome true = some (PyFailure.nameError "multi_mode_dot") ∧
      fista_nnls_outcome false = some (PyFailure.typeError "tl.zeros") ∧
      boundName "multi_mode_dot" = false ∧
      boundName "np" = false :=
  ⟨rfl, rfl, rfl, rfl, rfl⟩

/-! ### Claim C8 -/

/-- C8.  Starting from `momentum = 1`, the momentum scalar of
`fista_nnls` follows exactly the closed-form Nesterov recurrence
`momentum' = (1 + sqrt(1 + 4·momentum²))/2` (over the same external
square-root primitive), and every iteration computes the next
extrapolated point as
`x_extrapolated' = x_new + ((momentum - 1)/momentum')·(x_new - x_prev)`
with `momentum` the pre-update value and `x_prev` the previous iterate. -/
theorem C8_momentum_recurrence :
    ∀ (pp : FistaParams) (x0 : List ℚ),
      (fistaIterate pp x0 0).momentum_0 = 1 ∧
      (∀ k, (fistaIterate pp x0 k).momentum_0 = nesterovRecurrence pp.sqrtF k) ∧
      (∀ (s : FistaState) (iter : ℕ),
        (fistaBody pp s iter).1.momentum_0 =
          (1 + pp.sqrtF (1 + 4 * s.momentum_0 ^ 2)) / 2 ∧
        (fistaBody pp s iter).1.x_upd = (List.range pp.n).map (fun j =>
          (fistaBody pp s iter).1.x.getD j 0 +
            ((s.momentum_0 - 1) / (fistaBody pp s iter).1.momentum_0) *
              ((fistaBody pp s iter).1.x.getD j 0 - s.x.getD j 0))) := by
  intro pp x0
  refine ⟨rfl, ?_, ?_⟩
  · intro k
    induction k with
    | zero => rfl
    | succ k ih =>
      show (1 + pp.sqrtF (1 + 4 * (fistaIterate pp x0 k).momentum_0 ^ 2)) / 2 =
        (1 + pp.sqrtF (1 + 4 * nesterovRecurrence pp.sqrtF k ^ 2)) / 2
      rw [ih]
  · intro s iter
    refine ⟨rfl, ?_⟩
    have hx : (fistaBody pp s iter).1.x = (List.range pp.n).map (fistaXnewEntry pp s) := rfl
    have hm : (fistaBody pp s iter).1.momentum_0 = fistaMomentumNext pp s.momentum_0 := rfl
    rw [hx, hm]
    show (List.range pp.n).map _ = _
    refine map_range_congr pp.n (fun j hj => ?_)
    rw [getD_map_range _ hj]

/-! ### Claim C9 -/

/-- C9.  With `exact=False`: every returned `complexity_ratio` equals
`1 + (rows·cols + cols·rank)/(rows·rank + rows)` computed from the shape
of the returned `V`; whenever the loop ends before exhausting
`n_iter_max` the break condition
`rec_error < tol·rec_error0 ∨ iteration > 1 + 0.5·complexity_ratio` held
at the final iteration (with `rec_error0` as the code computes it); and
conversely, whenever the per-iteration break flag is set the loop stops at
that iteration with exactly those values. -/
theorem C9_nonexact_stopping :
    (∀ (p : HalsParams) (sf : List (List ℚ) → List (List ℚ) → List (List ℚ))
        (V0 : Option (List (List ℚ))) (r : HalsResult),
        p.exactMode = false → hals_nnls p sf V0 = Except.ok r →
          r.complexity =
              specComplexityFormula r.V.length (r.V.headD []).length p.UtM.length ∧
            (r.iteration + 1 < p.n_iter_max →
              (r.rec_error < p.tol * (if r.iteration = 1 then r.rec_error else 0) ∨
                ((r.iteration : ℚ) > 1 + (1/2) * r.complexity)))) ∧
      (∀ (p : HalsParams) (rank n fuel iter : ℕ) (V V' : List (List ℚ))
          (re re0 cr : ℚ),
        halsIterStep p rank n V iter = Except.ok (V', re, re0, cr, true) →
          halsGo p rank n (fuel + 1) iter V = Except.ok ⟨V', re, iter, cr⟩) := by
  constructor
  · intro p sf V0 r hex h
    unfold hals_nnls at h
    rw [halsEff_of_not_exact hex] at h
    refine ⟨halsGo_complexity_eq _ _ _ _ h, fun hlt => ?_⟩
    exact halsGo_early_break hex _ _ _ _ h (by omega)
  · intro p rank n fuel iter V V' re re0 cr hstep
    exact halsGo_break_now fuel hstep

unseal Rat.add Rat.mul Rat.inv Rat.sub in
/-- C9, witness: the minimal run returns `complexity_ratio = 2 =
specComplexityFormula 1 1 1`, stops early at iteration `3 > 1 + 0.5·2`,
and the break-flagged step at iteration 3 stops the loop immediately. -/
theorem C9_witness :
    ((2 : ℚ) = specComplexityFormula 1 1 1 ∧
      ((0 : ℚ) < tinyParams.tol * (if (3 : ℕ) = 1 then (0 : ℚ) else 0) ∨
        ((3 : ℕ) : ℚ) > 1 + (1/2) * 2)) ∧
      halsGo tinyParams 1 1 (4 + 1) 3 [[1]] = Except.ok ⟨[[1]], 0, 3, 2⟩ :=
  ⟨⟨(C9_nonexact_stopping.1 tinyParams solveOracle (some [[1]])
        ⟨[[1]], 0, 3, 2⟩ rfl (by decide)).1,
      (C9_nonexact_stopping.1 tinyParams solveOracle (some [[1]])
        ⟨[[1]], 0, 3, 2⟩ rfl (by decide)).2 (by decide)⟩,
    C9_nonexact_stopping.2 tinyParams 1 1 4 3 [[1]] [[1]] 0 0 2 (by decide)⟩

/-! ### Claim C10 -/

/-- C10.  For every call to `hals_nnls` that returns, the returned
iteration index satisfies `0 ≤ iteration ≤ n_iter_max`, with `n_iter_max`
taken as 5000 when `exact=True` (the loop variable is a `ℕ`, so the lower
bound is by construction; the bound is in fact strict:
`iteration ≤ n_iter_max - 1`). -/
theorem C10_iteration_bound :
    ∀ (p : HalsParams) (sf : List (List ℚ) → List (List ℚ) → List (List ℚ))
      (V0 : Option (List (List ℚ))) (r : HalsResult),
      hals_nnls p sf V0 = Except.ok r →
        r.iteration ≤ (if p.exactMode then 5000 else p.n_iter_max) ∧
          0 ≤ r.iteration := by
  intro p sf V0 r h
  unfold hals_nnls at h
  have hlt := halsGo_iteration_lt _ _ _ _ h
  rw [halsEff_n_iter_max] at hlt
  exact ⟨by omega, Nat.zero_le _⟩

unseal Rat.add Rat.mul Rat.inv Rat.sub in
/-- C10, witness: the minimal run returns iteration `3 ≤ 5`. -/
theorem C10_witness :
    (3 : ℕ) ≤ (if tinyParams.exactMode then 5000 else tinyParams.n_iter_max) ∧
      (0 : ℕ) ≤ 3 :=
  C10_iteration_bound tinyParams solveOracle (some [[1]]) ⟨[[1]], 0, 3, 2⟩
    (by decide)

end Proximal
